import Mathlib

/-!
Verification of the hidden-line edge-projection engine.

The JavaScript source is shallowly embedded over exact rationals: every
floating-point value is modelled as a `ℚ`, vectors as triples of `ℚ`.
Square roots produced by `normalize`, `getArea`, `distance` and friends do
not exist over `ℚ`; wherever the source compares a normalized quantity
against a tolerance we use the algebraically equivalent squared comparison
(`|a| / L < eps` with `L > 0` becomes `a ^ 2 < eps ^ 2 * L ^ 2`), and the
`NaN` behaviour of normalizing a zero vector (every comparison with `NaN`
is false) is made explicit by a zero test.  Each definition carries a note
pointing at the function of the source it translates.
-/

/-- 3D vector with rational coordinates, modelling `THREE.Vector3`. -/
structure Vec3 where
  x : ℚ
  y : ℚ
  z : ℚ
deriving DecidableEq, Repr

namespace Vec3

def add (a b : Vec3) : Vec3 := ⟨a.x + b.x, a.y + b.y, a.z + b.z⟩

def sub (a b : Vec3) : Vec3 := ⟨a.x - b.x, a.y - b.y, a.z - b.z⟩

def smul (c : ℚ) (a : Vec3) : Vec3 := ⟨c * a.x, c * a.y, c * a.z⟩

def dot (a b : Vec3) : ℚ := a.x * b.x + a.y * b.y + a.z * b.z

/-- `THREE.Vector3.cross`. -/
def cross (a b : Vec3) : Vec3 :=
  ⟨a.y * b.z - a.z * b.y, a.z * b.x - a.x * b.z, a.x * b.y - a.y * b.x⟩

/-- Squared length (`lengthSq` in three.js). -/
def normSq (a : Vec3) : ℚ := dot a a

/-- Squared distance between two points (`distanceToSquared`). -/
def distSq (a b : Vec3) : ℚ := normSq (sub a b)

def zero : Vec3 := ⟨0, 0, 0⟩

end Vec3

/-- Line segment, modelling `THREE.Line3` (`start`/`end` points). -/
structure Seg where
  s : Vec3
  e : Vec3
deriving DecidableEq, Repr

namespace Seg

/-- `Line3.delta`: the vector from start to end. -/
def delta (l : Seg) : Vec3 := Vec3.sub l.e l.s

/-- `Line3.at(t)`: linear interpolation `start + t * (end - start)`. -/
def at' (l : Seg) (t : ℚ) : Vec3 := Vec3.add l.s (Vec3.smul t (delta l))

end Seg

/-- Triangle with three ordered vertices, modelling `THREE.Triangle`. -/
structure Tri where
  a : Vec3
  b : Vec3
  c : Vec3
deriving DecidableEq, Repr

namespace Tri

/-- The triangle's vertices in the order of the `points` array of
`ExtendedTriangle` (`[a, b, c]`). -/
def points (t : Tri) : List Vec3 := [t.a, t.b, t.c]

/-- The unnormalized normal used by `Plane.setFromCoplanarPoints(a, b, c)`:
`(c - b) × (a - b)`.  three.js stores the normalized vector; we keep the
unnormalized one and perform squared comparisons at every use site. -/
def rawNormal (t : Tri) : Vec3 := Vec3.cross (Vec3.sub t.c t.b) (Vec3.sub t.a t.b)

end Tri

/-! ## `src/utils/triangleLineUtils.js`

`EPSILON = 1e-16` (raw squared-coordinate and normalized-dot tolerance). -/

def tluEPSILON : ℚ := 1 / 10 ^ 16

/-- `isLineTriangleEdge(tri, line)` translated literally: the loop over the
three triangle vertices with the monotone `startMatches` / `endMatches`
flags and the early `return true` once both are set. -/
def isLineTriangleEdge (tri : Tri) (line : Seg) : Bool :=
  -- iteration i = 0
  let sm0 : Bool := Vec3.distSq line.s tri.a ≤ tluEPSILON
  let em0 : Bool := Vec3.distSq line.e tri.a ≤ tluEPSILON
  if sm0 && em0 then true else
  -- iteration i = 1 (a flag already set is kept, `!startMatches` guard)
  let sm1 : Bool := sm0 || decide (Vec3.distSq line.s tri.b ≤ tluEPSILON)
  let em1 : Bool := em0 || decide (Vec3.distSq line.e tri.b ≤ tluEPSILON)
  if sm1 && em1 then true else
  -- iteration i = 2
  let sm2 : Bool := sm1 || decide (Vec3.distSq line.s tri.c ≤ tluEPSILON)
  let em2 : Bool := em1 || decide (Vec3.distSq line.e tri.c ≤ tluEPSILON)
  sm2 && em2

/-- `isYProjectedLineDegenerate(line, projectionVector)`:
`|normalize(line.delta()) ⬝ projectionVector| >= 1 - EPSILON`.
With `d = line.delta()` and `L = |d| > 0` this is `(d ⬝ v)^2 ≥ (1-ε)^2·|d|^2`.
For a zero-length line three.js normalization yields `NaN` components and
the comparison is false; hence the explicit zero test. -/
def isProjectedLineDegenerate (line : Seg) (projectionVector : Vec3) : Bool :=
  let d := Seg.delta line
  if d = Vec3.zero then false
  else (Vec3.dot d projectionVector) ^ 2 ≥ (1 - tluEPSILON) ^ 2 * Vec3.normSq d

/-! `ExtendedTriangle` (three-mesh-bvh) carries a cached plane recomputed by
`update()` when `needsUpdate` is set; modelled as an explicit record so the
mutation performed by `isYProjectedTriangleDegenerate` is observable. -/

structure ExtTri where
  a : Vec3
  b : Vec3
  c : Vec3
  /-- Cached (possibly stale) plane normal; three.js stores it normalized,
  we store the unnormalized `(c-b) × (a-b)` and compare squares. -/
  planeNormal : Vec3
  needsUpdate : Bool
deriving DecidableEq, Repr

/-- `ExtendedTriangle.update()`: recompute the cached plane from the current
vertices and clear the staleness flag. -/
def ExtTri.update (t : ExtTri) : ExtTri :=
  { t with planeNormal := Tri.rawNormal ⟨t.a, t.b, t.c⟩, needsUpdate := false }

/-- `isYProjectedTriangleDegenerate(tri, projectionVector)` in explicit
state-passing form: the conditional `tri.update()` mutates the argument, so
the translation returns the updated triangle next to the Boolean result.
The test is `|n̂ ⬝ v| ≤ EPSILON` with `n̂` the stored unit normal, i.e.
`(n ⬝ v)^2 ≤ ε^2 · |n|^2`; a zero cached normal normalizes to `NaN` and
the comparison is then false. -/
def isYProjectedTriangleDegenerateS (t : ExtTri) (projectionVector : Vec3) :
    Bool × ExtTri :=
  let t' := if t.needsUpdate then t.update else t
  let n := t'.planeNormal
  if n = Vec3.zero then (false, t')
  else (decide ((Vec3.dot n projectionVector) ^ 2 ≤ tluEPSILON ^ 2 * Vec3.normSq n), t')

/-- `isProjectedTriangleDegenerate` delegates to the Y-named function. -/
def isProjectedTriangleDegenerateS (t : ExtTri) (projectionVector : Vec3) :
    Bool × ExtTri :=
  isYProjectedTriangleDegenerateS t projectionVector

/-- Pure view of the triangle degeneracy test on an up-to-date triangle
(the form in which the occlusion loop observes it, since the generator
updates triangles before the predicates run). -/
def isProjectedTriangleDegenerate (t : Tri) (projectionVector : Vec3) : Bool :=
  let n := Tri.rawNormal t
  if n = Vec3.zero then false
  else (Vec3.dot n projectionVector) ^ 2 ≤ tluEPSILON ^ 2 * Vec3.normSq n

/-! ## Dominant projection axis

Several sites of `generateIntersectionEdges.js` re-derive the axis with the
largest absolute component of the projection vector through the same
`absX >= absY && absX >= absZ` / `absY >= absX && absY >= absZ` / else
chain; it is factored out here once. -/

inductive Axis where
  | x
  | y
  | z
deriving DecidableEq, Repr

def axisCoord : Axis → Vec3 → ℚ
  | .x, v => v.x
  | .y, v => v.y
  | .z, v => v.z

/-- The branch chain selecting the dominant component (ties prefer X, then Y). -/
def dominantAxis (v : Vec3) : Axis :=
  if |v.x| ≥ |v.y| ∧ |v.x| ≥ |v.z| then .x
  else if |v.y| ≥ |v.x| ∧ |v.y| ≥ |v.z| then .y
  else .z

/-! ## `src/utils/generateIntersectionEdges.js` (Self-Intersection Detector) -/

def OFFSET_EPSILON : ℚ := 1 / 10 ^ 6

/-- The `offsetVector` computed at the top of `generateIntersectionEdges`:
`OFFSET_EPSILON` placed on the dominant axis of the projection vector. -/
def offsetVector (projectionVector : Vec3) : Vec3 :=
  match dominantAxis projectionVector with
  | .x => ⟨OFFSET_EPSILON, 0, 0⟩
  | .y => ⟨0, OFFSET_EPSILON, 0⟩
  | .z => ⟨0, 0, OFFSET_EPSILON⟩

/-- Modelled from the spec: the triangle equality used by the external
`_tri.equals(tri2)` call — "same 3 vertices (any rotation) within a
squared-distance tolerance" (the tolerance constant is not in the sources
under `src/`; the predicate only has to be reflexive for the theorems
below, and it is for any tolerance `≥ 0`). -/
def triEquals (t u : Tri) : Bool :=
  let close := fun (p q : Vec3) => decide (Vec3.distSq p q ≤ tluEPSILON)
  (close t.a u.a && close t.b u.b && close t.c u.c) ||
  (close t.a u.b && close t.b u.c && close t.c u.a) ||
  (close t.a u.c && close t.b u.a && close t.c u.b)

/-- `|_tri.plane.normal ⬝ tri2.plane.normal| > 1 - 1e-6` with unit plane
normals, i.e. `(n₁ ⬝ n₂)^2 > (1 - 1e-6)^2 |n₁|^2 |n₂|^2` on the raw
normals; a degenerate triangle has `NaN` unit normal and the comparison is
then false. -/
def nearParallelNormals (t u : Tri) : Bool :=
  let n1 := Tri.rawNormal t
  let n2 := Tri.rawNormal u
  if n1 = Vec3.zero ∨ n2 = Vec3.zero then false
  else (Vec3.dot n1 n2) ^ 2 > (1 - 1 / 10 ^ 6) ^ 2 * Vec3.normSq n1 * Vec3.normSq n2

/-- The body of the `intersectsTriangle` callback of
`generateIntersectionEdges` for outer triangle `t` and visited triangle
`t2`: skip on triangle equality, skip on near-parallel planes, run the
(external, hence parametrised) triangle-triangle intersection test, reject
boundary edges of either triangle, and offset the surviving segment by
`offsetVector`.  `some` is the segment pushed onto `edges`. -/
def intersectionEmit (interTest : Tri → Tri → Option Seg)
    (projectionVector : Vec3) (t t2 : Tri) : Option Seg :=
  if triEquals t t2 then none
  else if nearParallelNormals t t2 then none
  else
    match interTest t t2 with
    | none => none
    | some seg =>
      if ¬ isLineTriangleEdge t seg ∧ ¬ isLineTriangleEdge t2 seg then
        let off := offsetVector projectionVector
        some ⟨Vec3.add seg.s off, Vec3.add seg.e off⟩
      else none

/-- `generateIntersectionEdges(bvh, iterationTime, projectionVector)`: the
outer loop over the mesh triangles; the `bvh.shapecast` traversal is
modelled as visiting every triangle of the geometry (`intersectsBounds`
only prunes volumes that cannot contain an intersecting triangle, and the
callback re-checks everything exactly).  The cooperative `yield` points do
not affect the produced list and are dropped. -/
def generateIntersectionEdges (tris : List Tri) (projectionVector : Vec3)
    (interTest : Tri → Tri → Option Seg) : List Seg :=
  tris.flatMap fun t => tris.filterMap (intersectionEmit interTest projectionVector t)

/-! ## `ProjectionGenerator.generate`: the per-triangle occlusion callback -/

/-- The first guard of the `intersectsTriangle` callback of the occlusion
query (`generate`, "skip the triangle if the triangle is completely below
the line"): `Math.max(tri.a.y, tri.b.y, tri.c.y) <= Math.min(line.start.y,
line.end.y)`.  Note that the source compares Y coordinates for every
projection vector. -/
def farBelowSkip (tri : Tri) (line : Seg) : Bool :=
  max tri.a.y (max tri.b.y tri.c.y) ≤ min line.s.y line.e.y

/-- The far-side test the specification describes: the same extent
comparison but taken along the dominant axis of the projection vector. -/
def specFarSideAlongAxis (k : Axis) (tri : Tri) (line : Seg) : Bool :=
  max (axisCoord k tri.a) (max (axisCoord k tri.b) (axisCoord k tri.c)) ≤
    min (axisCoord k line.s) (axisCoord k line.e)

/-- The early-exit decision at the end of the occlusion callback:
`if (hiddenOverlaps.length !== 0) { const [d0, d1] = hiddenOverlaps[last];
return d0 === 0.0 && d1 === 1.0 } return false`. -/
def hiddenExitSignal (overlaps : List (ℚ × ℚ)) : Bool :=
  match overlaps.getLast? with
  | none => false
  | some p => decide (p.1 = 0 ∧ p.2 = 1)

/-- The spatial-index traversal for one candidate edge, modelled per the
traversal contract (the external `bvh.shapecast` visits candidate
triangles one at a time and aborts the whole query as soon as the
per-triangle callback returns `true`).  `update` stands for steps b–d of
the callback (trim, overlap, append, re-merge), which turn the hidden
interval set into its successor; the exit test is the literal one above.
Returns the list of visited triangles and the final interval set. -/
def shapecastRun (update : Tri → List (ℚ × ℚ) → List (ℚ × ℚ)) :
    List Tri → List (ℚ × ℚ) → List Tri × List (ℚ × ℚ)
  | [], st => ([], st)
  | t :: ts, st =>
    let st' := update t st
    if hiddenExitSignal st' then ([t], st')
    else
      let r := shapecastRun update ts st'
      (t :: r.1, r.2)

/-- Interval set reached after processing a given list of triangles with no
early exit (used to phrase where the traversal stops). -/
def stateAfter (update : Tri → List (ℚ × ℚ) → List (ℚ × ℚ))
    (st : List (ℚ × ℚ)) (ts : List Tri) : List (ℚ × ℚ) :=
  ts.foldl (fun s t => update t s) st

/-! ## `getProjectedLineOverlap.js` (Projected Overlap Solver)

`AREA_EPSILON = 1e-16`, `DIST_EPSILON = 1e-16`.  The function flattens the
triangle and the line along the dominant projection axis, rejects
near-zero-area triangles, sweeps the three flattened triangle edges
against the plane that contains the flattened line and is orthogonal to
the flattened triangle, and intersects the two resulting 1D spans.

Scaling notes for the `ℚ` embedding (`d` the flattened line delta,
`L = |d| > 0`): the plane normal used by three.js is the unit vector
`(d/L) × n̂`; since the flattened triangle lies in a coordinate plane its
unit normal `n̂` is the signed coordinate axis, so `(d × n̂)` has length
`L` and the signed plane distance of a point `p` is `w p / L` with
`w p = (d × n̂) ⬝ (p - start)`.  All comparisons below are the source's
ones multiplied through by powers of `L`. -/

def AREA_EPSILON : ℚ := 1 / 10 ^ 16

def DIST_EPSILON : ℚ := 1 / 10 ^ 16

/-- Zero out the coordinate of the dominant axis (the projection flatten
step at the top of `getProjectedLineOverlap`). -/
def flattenVec : Axis → Vec3 → Vec3
  | .x, v => ⟨0, v.y, v.z⟩
  | .y, v => ⟨v.x, 0, v.z⟩
  | .z, v => ⟨v.x, v.y, 0⟩

def flattenTri (k : Axis) (t : Tri) : Tri :=
  ⟨flattenVec k t.a, flattenVec k t.b, flattenVec k t.c⟩

def flattenSeg (k : Axis) (l : Seg) : Seg :=
  ⟨flattenVec k l.s, flattenVec k l.e⟩

def axisUnit : Axis → Vec3
  | .x => ⟨1, 0, 0⟩
  | .y => ⟨0, 1, 0⟩
  | .z => ⟨0, 0, 1⟩

/-- Unit normal of the flattened triangle: its raw normal is supported on
the flattened axis, so normalizing just extracts the sign. -/
def flatUnitNormal (k : Axis) (ft : Tri) : Vec3 :=
  if 0 ≤ axisCoord k (Tri.rawNormal ft) then axisUnit k
  else Vec3.smul (-1) (axisUnit k)

/-- `_tri.getArea() <= AREA_EPSILON` with `getArea = |(c-b) × (a-b)| / 2`,
squared: `|C|^2 ≤ 4 ε^2`. -/
def overlapAreaDegenerate (k : Axis) (tri : Tri) : Bool :=
  Vec3.normSq (Tri.rawNormal (flattenTri k tri)) ≤ 4 * AREA_EPSILON ^ 2

/-- Scaled signed distance of `p` to the sweeping plane (`L` times the
  three.js `_orthoPlane.distanceToPoint(p)`). -/
def sweepDist (d nhat p0 p : Vec3) : ℚ :=
  Vec3.dot (Vec3.cross d nhat) (Vec3.sub p p0)

/-- `Math.abs(_orthoPlane.distanceToPoint(p)) < DIST_EPSILON`, multiplied
through by `L^2`. -/
def sweepNear (d nhat p0 p : Vec3) : Bool :=
  (sweepDist d nhat p0 p) ^ 2 < DIST_EPSILON ^ 2 * Vec3.normSq d

/-- `Plane.intersectLine` of three.js for the sweeping plane and the
triangle edge `p1 → p2`: exact zero test on the denominator, parameter
clamped to `[0, 1]`, degenerate case returns the edge start when it lies
exactly on the plane. -/
def sweepIntersectLine (d nhat p0 p1 p2 : Vec3) : Option Vec3 :=
  let q := Vec3.dot (Vec3.cross d nhat) (Vec3.sub p2 p1)
  if q = 0 then
    if sweepDist d nhat p0 p1 = 0 then some p1 else none
  else
    let t := -(sweepDist d nhat p0 p1) / q
    if t < 0 ∨ t > 1 then none else some (Vec3.add p1 (Vec3.smul t (Vec3.sub p2 p1)))

/-- One iteration of the edge sweep loop: the recorded crossing point, if
the edge contributes one (`edgeIntersects && !endIntersects ||
startIntersects`, with `_point` set to the edge start when the start lies
on the plane and `intersectLine` found nothing). -/
def sweepContribution (d nhat p0 p1 p2 : Vec3) : Option Vec3 :=
  let sI := sweepNear d nhat p0 p1
  let eI := sweepNear d nhat p0 p2
  let eInt := sweepIntersectLine d nhat p0 p1 p2
  if (eInt.isSome && !eI) || sI then
    some (if sI && eInt.isNone then p1 else eInt.getD p1)
  else none

/-- The crossing points recorded by the sweep over the three edges
`(a,b), (b,c), (c,a)` in loop order (the loop breaks once two points are
found, which corresponds to keeping the first two entries). -/
def sweepCrossings (k : Axis) (ft : Tri) (fl : Seg) : List Vec3 :=
  let d := Seg.delta fl
  let nhat := flatUnitNormal k ft
  (([(ft.a, ft.b), (ft.b, ft.c), (ft.c, ft.a)]).filterMap
    fun pq => sweepContribution d nhat fl.s pq.1 pq.2)

/-- The 1D separation test of the source on the two (direction-aligned)
chord endpoints, multiplied through by `L`: with `s1 = 0`,
`e1 = L`, `s2 = (P - start) ⬝ d / L`, `e2 = (Q - start) ⬝ d / L`, the
source tests `e1 <= s2 || e2 <= s1`. -/
def spanSeparated (fl : Seg) (tls tle : Vec3) : Bool :=
  let d := Seg.delta fl
  Vec3.normSq d ≤ Vec3.dot (Vec3.sub tls fl.s) d ∨
    Vec3.dot (Vec3.sub tle fl.s) d ≤ 0

/-- The "swap edges so they're facing in the same direction" step: reverse
the chord when its direction opposes the line's (`_dir.dot(_triDir) < 0`;
normalization does not change the sign, and a degenerate chord compares
`NaN < 0`, i.e. no swap — here `0 < 0`, likewise no swap). -/
def orientedChord (fl : Seg) (p1 p2 : Vec3) : Vec3 × Vec3 :=
  if Vec3.dot (Seg.delta fl) (Vec3.sub p2 p1) < 0 then (p2, p1) else (p1, p2)

/-- `getProjectedLineOverlap(line, triangle, lineTarget, projectionVector)`.
Returns `none` where the source returns `null`, and the sub-segment of the
**original** line written into `lineTarget` otherwise. -/
def getProjectedLineOverlap (line : Seg) (triangle : Tri)
    (projectionVector : Vec3) : Option Seg :=
  let k := dominantAxis projectionVector
  let ft := flattenTri k triangle
  let fl := flattenSeg k line
  if overlapAreaDegenerate k triangle then none
  else
    match sweepCrossings k ft fl with
    | p1 :: p2 :: _ =>
      let d := Seg.delta fl
      let tl := orientedChord fl p1 p2
      if spanSeparated fl tl.1 tl.2 then none
      else
        let e1s := Vec3.normSq d
        let s2 := Vec3.dot (Vec3.sub tl.1 fl.s) d
        let e2 := Vec3.dot (Vec3.sub tl.2 fl.s) d
        some ⟨Seg.at' line (max 0 s2 / e1s), Seg.at' line (min e1s e2 / e1s)⟩
    | _ => none

/-! ## Overlap Interval Algebra

The implementation file `utils/overlapUtils.js` is not part of the sources
(only its call sites in `ProjectionGenerator.generate` are), so
`compressEdgeOverlaps` is modelled from the spec: "sorts intervals by `t0`
and merges any that overlap or touch, producing the minimal disjoint
cover".  `Array.prototype.sort` with the numeric `a[0] - b[0]` comparator
is modelled as insertion sort by the `t0` key (the observable contract:
some permutation ordered by the key). -/

def insertByKey {α : Type} (f : α → ℚ) (x : α) : List α → List α
  | [] => [x]
  | y :: ys => if f x ≤ f y then x :: y :: ys else y :: insertByKey f x ys

def sortByKey {α : Type} (f : α → ℚ) (l : List α) : List α :=
  l.foldr (insertByKey f) []

/-- Modelled from the spec: the merge half of `compressEdgeOverlaps` — on a
list sorted by `t0`, fuse each interval into its predecessor while it
starts at or before the predecessor's end. -/
def mergeTouching : List (ℚ × ℚ) → List (ℚ × ℚ)
  | [] => []
  | [a] => [a]
  | a :: b :: r =>
    if b.1 ≤ a.2 then mergeTouching ((a.1, max a.2 b.2) :: r)
    else a :: mergeTouching (b :: r)
termination_by l => l.length
decreasing_by
  all_goals simp

/-- Modelled from the spec: `compressEdgeOverlaps(intervalSet)` — sort by
`t0`, then merge overlapping or touching intervals. -/
def compressEdgeOverlaps (overlaps : List (ℚ × ℚ)) : List (ℚ × ℚ) :=
  mergeTouching (sortByKey Prod.fst overlaps)

/-- Membership in the union of a list of closed intervals. -/
def memUnion (l : List (ℚ × ℚ)) (x : ℚ) : Prop :=
  ∃ p ∈ l, p.1 ≤ x ∧ x ≤ p.2

/-! ## `ProjectionGenerator.generate`: prelude before the per-edge loop -/

structure GenOptions where
  sortEdges : Bool
  includeIntersectionEdges : Bool
deriving DecidableEq, Repr

/-- Sort key of the candidate-edge sort:
`Math.min(a.start[k], a.end[k])` on the dominant axis `k`. -/
def minDominantCoord (projectionVector : Vec3) (l : Seg) : ℚ :=
  min (axisCoord (dominantAxis projectionVector) l.s)
    (axisCoord (dominantAxis projectionVector) l.e)

/-- The prelude of `ProjectionGenerator.generate` up to the per-edge
occlusion loop, as found at the head of the generator body: collect the
feature edges (external extractor, passed in), append the
self-intersection edges when enabled, and sort by the dominant-axis
minimum when enabled.  The source performs no validation whatsoever — no
check of the position buffer, of the projection vector, or of the spatial
index — and contains no throw statement, so the `Except` result is always
`Except.ok`. -/
def generatePrelude (tris : List Tri) (featureEdges : List Seg)
    (projectionVector : Vec3) (opts : GenOptions)
    (interTest : Tri → Tri → Option Seg) : Except String (List Seg) :=
  let edges := featureEdges ++
    (if opts.includeIntersectionEdges then
      generateIntersectionEdges tris projectionVector interTest
    else [])
  let edges := if opts.sortEdges then
      sortByKey (minDominantCoord projectionVector) edges
    else edges
  Except.ok edges

/-! ## `postProcessing.js`: the Topology Filter's component pass

`filterLines`'s second pass runs `findConnectedComponents` (a depth-first
flood) over the survivors of the first pass.  The `connections` sets were
built over *all* lines in `buildTopology` (symmetrically:
`line.connections.add(nearby); nearby.connections.add(line)`), and the
flood follows them transitively, so the component collected for a
survivor is its full connectivity class in the original adjacency graph —
including lines the first pass dropped — and the size / C1 / axis-aligned
criteria are evaluated over that class.  Lines are indexed by `Fin n`;
the adjacency matrix and the per-line data are inputs. -/

def MIN_COMPONENT_SIZE : ℕ := 3

/-- Per-line record: geometry plus the `hasC1Continuity` flag that
`buildTopology` stored on the line object. -/
structure FilterLine where
  s : Vec3
  e : Vec3
  hasC1 : Bool
deriving DecidableEq, Repr

/-- `LineSegment.isAxisAligned()`: some component of the normalized
direction exceeds `1 - AXIS_THRESHOLD = 0.9` in absolute value, i.e.
`c^2 > 0.81 |delta|^2`; a zero-length line has `NaN` direction and the
test is false. -/
def isAxisAligned (l : FilterLine) : Bool :=
  let d := Vec3.sub l.e l.s
  let lsq := Vec3.normSq d
  if lsq = 0 then false
  else d.x ^ 2 > (9 / 10) ^ 2 * lsq ∨ d.y ^ 2 > (9 / 10) ^ 2 * lsq ∨
    d.z ^ 2 > (9 / 10) ^ 2 * lsq

/-- One round of the flood: everything already collected plus everything
adjacent to it. -/
def stepReach {n : ℕ} (adj : Fin n → Fin n → Bool) (s : Finset (Fin n)) :
    Finset (Fin n) :=
  s ∪ Finset.univ.filter fun j => ∃ i ∈ s, adj i j = true

/-- The set the depth-first flood collects from seed `i`: `n` rounds of
expansion saturate any graph on `n` vertices. -/
def reachSet {n : ℕ} (adj : Fin n → Fin n → Bool) (i : Fin n) :
    Finset (Fin n) :=
  (stepReach adj)^[n] {i}

/-- The per-component keep decision of the second pass:
`componentLines.size >= MIN_COMPONENT_SIZE || hasC1Lines ||
hasAxisAlignedLines`, evaluated on the flood-collected class. -/
def componentCriteria {n : ℕ} (lineOf : Fin n → FilterLine)
    (adj : Fin n → Fin n → Bool) (i : Fin n) : Bool :=
  decide (MIN_COMPONENT_SIZE ≤ (reachSet adj i).card) ||
    decide (∃ j ∈ reachSet adj i,
      ((lineOf j).hasC1 = true ∨ isAxisAligned (lineOf j) = true))

/-- The component pass of `filterLines`: keep each first-pass survivor
exactly when its component is valid.  (The labelling bookkeeping of
`findConnectedComponents` assigns one id per class; since the `dfs` from
any member collects the same class, the per-line evaluation below is the
same decision.) -/
def componentPass {n : ℕ} (lineOf : Fin n → FilterLine)
    (adj : Fin n → Fin n → Bool) (survivors : List (Fin n)) : List (Fin n) :=
  survivors.filter fun i => componentCriteria lineOf adj i

/-! ## Specification-side predicates

Definitions below follow the wording of the specification claims (not the
source); they exist to be compared against the source embeddings. -/

def Tri.vert (t : Tri) : Fin 3 → Vec3
  | 0 => t.a
  | 1 => t.b
  | 2 => t.c

/-- Claim wording for the boundary-edge predicate: both endpoints coincide,
within the squared-distance tolerance, with **two distinct** vertices of
the triangle, matched in either order. -/
def specTwoDistinctVertexMatch (tri : Tri) (line : Seg) : Prop :=
  ∃ i j : Fin 3, i ≠ j ∧ Vec3.distSq line.s (tri.vert i) ≤ tluEPSILON ∧
    Vec3.distSq line.e (tri.vert j) ≤ tluEPSILON

instance (tri : Tri) (line : Seg) : Decidable (specTwoDistinctVertexMatch tri line) := by
  unfold specTwoDistinctVertexMatch
  infer_instance

/-- Claim wording for the overlap solver's no-overlap condition: the
segment's 1D span along the (flattened) line direction, `[0, |d|²]` after
scaling by `|d|`, is disjoint from the triangle's span, the interval
spanned by the projections of the three flattened vertices.  Disjointness
of two closed intervals with the triangle span nonempty: all vertex
projections lie strictly beyond `|d|²`, or all lie strictly below `0`. -/
def specSpansDisjoint (line : Seg) (tri : Tri) (projectionVector : Vec3) : Prop :=
  let k := dominantAxis projectionVector
  let fl := flattenSeg k line
  let ft := flattenTri k tri
  let d := Seg.delta fl
  let pj := fun v => Vec3.dot (Vec3.sub v fl.s) d
  (∀ v ∈ Tri.points ft, Vec3.normSq d < pj v) ∨ (∀ v ∈ Tri.points ft, pj v < 0)

instance (line : Seg) (tri : Tri) (pv : Vec3) :
    Decidable (specSpansDisjoint line tri pv) := by
  unfold specSpansDisjoint
  infer_instance

/-! # Theorems -/

/-- C1: the spec says the per-edge occlusion query measures the candidate
edge's extent and the "triangle entirely on the far side" skip along the
projection axis (X or Z coordinates for an X- or Z-dominant projection
vector).  The source's callback compares Y coordinates for every
projection vector: for the X-dominant vector `(1,0,0)`, a potential
X-occluder lying below the edge in Y is skipped, while a triangle entirely
on the far side along X is not. -/
theorem claim_C1_far_side_test_compares_y_for_x_projection :
    dominantAxis ⟨1, 0, 0⟩ = Axis.x
    ∧ farBelowSkip ⟨⟨10, 1, 0⟩, ⟨10, 2, 10⟩, ⟨12, 1, 5⟩⟩ ⟨⟨0, 5, 0⟩, ⟨0, 5, 10⟩⟩ = true
    ∧ specFarSideAlongAxis Axis.x ⟨⟨10, 1, 0⟩, ⟨10, 2, 10⟩, ⟨12, 1, 5⟩⟩
        ⟨⟨0, 5, 0⟩, ⟨0, 5, 10⟩⟩ = false
    ∧ farBelowSkip ⟨⟨0, 1, 0⟩, ⟨0, 1, 1⟩, ⟨0, 2, 0⟩⟩ ⟨⟨5, 0, 0⟩, ⟨5, 0, 1⟩⟩ = false
    ∧ specFarSideAlongAxis Axis.x ⟨⟨0, 1, 0⟩, ⟨0, 1, 1⟩, ⟨0, 2, 0⟩⟩
        ⟨⟨5, 0, 0⟩, ⟨5, 0, 1⟩⟩ = true := by
  decide

set_option maxHeartbeats 2000000 in
/-- C2, counterexample: two distinct crossing triangles (two axis-aligned
plates meeting along the segment `(0,0,0)-(0,0,2)`; the constant
`interTest` stands for the external triangle-triangle intersection of this
pair, which is symmetric and is only consulted on the two mixed
orderings).  The detector contains no unordered-pair skip — only the
`_tri.equals(tri2)` self test — so the pair is processed in both orders
and the same offset candidate edge is emitted twice. -/
theorem claim_C2_counterexample_duplicate_emission :
    (⟨⟨-1, 0, 0⟩, ⟨1, 0, 0⟩, ⟨0, 0, 2⟩⟩ : Tri) ≠ ⟨⟨0, -1, 0⟩, ⟨0, 1, 0⟩, ⟨0, 0, 2⟩⟩
    ∧ generateIntersectionEdges
        [⟨⟨-1, 0, 0⟩, ⟨1, 0, 0⟩, ⟨0, 0, 2⟩⟩, ⟨⟨0, -1, 0⟩, ⟨0, 1, 0⟩, ⟨0, 0, 2⟩⟩]
        ⟨0, 1, 0⟩ (fun _ _ => some ⟨⟨0, 0, 0⟩, ⟨0, 0, 2⟩⟩)
      = [⟨⟨0, 1 / 10 ^ 6, 0⟩, ⟨0, 1 / 10 ^ 6, 2⟩⟩,
         ⟨⟨0, 1 / 10 ^ 6, 0⟩, ⟨0, 1 / 10 ^ 6, 2⟩⟩] := by
  constructor
  · decide
  · simp only [generateIntersectionEdges, List.flatMap_cons, List.flatMap_nil,
      List.filterMap_cons, List.filterMap_nil]
    norm_num [intersectionEmit, triEquals, nearParallelNormals,
      isLineTriangleEdge, offsetVector, dominantAxis, OFFSET_EPSILON, tluEPSILON,
      Tri.rawNormal, Vec3.cross, Vec3.sub, Vec3.dot, Vec3.normSq, Vec3.distSq,
      Vec3.add, Vec3.zero, Seg.mk.injEq, Vec3.mk.injEq, axisCoord]

/-- C5, counterexample: with an empty position buffer (no triangles, no
feature edges) and the zero projection vector, `generate` does not fail
fast — there is no validation and no throw in its prelude; it proceeds
through candidate-edge extraction and returns an ordinary (empty) edge
list. -/
theorem claim_C5_counterexample_no_failfast :
    generatePrelude [] [] ⟨0, 0, 0⟩ ⟨true, true⟩ (fun _ _ => none) =
      Except.ok [] := by
  rfl

/-- C5, amended: `ProjectionGenerator.generate` performs no malformed-input
validation at all; for every input — position buffers empty or not,
projection vector zero or not — the prelude completes normally and never
produces an error. -/
theorem claim_C5_amended_generate_never_validates (tris : List Tri)
    (featureEdges : List Seg) (pv : Vec3) (opts : GenOptions)
    (interTest : Tri → Tri → Option Seg) :
    ∃ edges, generatePrelude tris featureEdges pv opts interTest =
      Except.ok edges :=
  ⟨_, rfl⟩

/-- C6, counterexample: a degenerate query segment whose two (equal)
endpoints coincide with one single vertex of the triangle.  The source's
per-vertex flags match start and end independently, so it answers `true`,
although no two **distinct** vertices are matched. -/
theorem claim_C6_counterexample_single_vertex :
    isLineTriangleEdge ⟨⟨0, 0, 0⟩, ⟨1, 0, 0⟩, ⟨0, 1, 0⟩⟩ ⟨⟨0, 0, 0⟩, ⟨0, 0, 0⟩⟩ = true
    ∧ ¬ specTwoDistinctVertexMatch ⟨⟨0, 0, 0⟩, ⟨1, 0, 0⟩, ⟨0, 1, 0⟩⟩
        ⟨⟨0, 0, 0⟩, ⟨0, 0, 0⟩⟩ := by
  constructor
  · norm_num [isLineTriangleEdge, tluEPSILON, Vec3.distSq, Vec3.normSq, Vec3.dot,
      Vec3.sub]
  · rintro ⟨i, j, hij, h1, h2⟩
    fin_cases i <;> fin_cases j <;>
      simp_all [Tri.vert, tluEPSILON, Vec3.distSq, Vec3.normSq, Vec3.dot, Vec3.sub] <;>
      norm_num at *

/-- C6, amended: `isLineTriangleEdge` is true iff each endpoint of the edge
coincides (within the squared-distance tolerance) with **some** vertex of
the triangle — possibly the same vertex for both endpoints. -/
theorem claim_C6_amended_each_endpoint_matches_some_vertex (tri : Tri) (line : Seg) :
    isLineTriangleEdge tri line = true ↔
      ((∃ v ∈ Tri.points tri, Vec3.distSq line.s v ≤ tluEPSILON) ∧
        (∃ v ∈ Tri.points tri, Vec3.distSq line.e v ≤ tluEPSILON)) := by
  unfold isLineTriangleEdge
  by_cases hsa : Vec3.distSq line.s tri.a ≤ tluEPSILON <;>
  by_cases hsb : Vec3.distSq line.s tri.b ≤ tluEPSILON <;>
  by_cases hsc : Vec3.distSq line.s tri.c ≤ tluEPSILON <;>
  by_cases hea : Vec3.distSq line.e tri.a ≤ tluEPSILON <;>
  by_cases heb : Vec3.distSq line.e tri.b ≤ tluEPSILON <;>
  by_cases hec : Vec3.distSq line.e tri.c ≤ tluEPSILON <;>
  simp [hsa, hsb, hsc, hea, heb, hec, Tri.points]

/-- C7, counterexample: the triangle degeneracy predicate is not
side-effect-free — called on a triangle whose cached plane is stale
(`needsUpdate`), it recomputes and stores the plane on its argument
(`tri.update()`), so the argument after the call differs from the
argument before it. -/
theorem claim_C7_counterexample_triangle_predicate_mutates :
    (isYProjectedTriangleDegenerateS
        ⟨⟨0, 0, 0⟩, ⟨1, 0, 0⟩, ⟨0, 1, 0⟩, ⟨5, 5, 5⟩, true⟩ ⟨0, 1, 0⟩).2
      ≠ ⟨⟨0, 0, 0⟩, ⟨1, 0, 0⟩, ⟨0, 1, 0⟩, ⟨5, 5, 5⟩, true⟩ := by
  norm_num [isYProjectedTriangleDegenerateS, ExtTri.update, Tri.rawNormal,
    Vec3.cross, Vec3.sub, Vec3.zero, Vec3.dot, Vec3.normSq, tluEPSILON,
    ExtTri.mk.injEq, Vec3.mk.injEq]

/-- C7, amended: the degeneracy predicates compute the cited conditions —
the edge predicate is true exactly when the edge has nonzero direction `d`
and `(d ⬝ v)² ≥ (1-ε)² |d|²` (the squared form of "normalized dot at least
`1-ε`"; the Lagrange identity in the second conjunct shows the normalized
dot never exceeds 1 for a unit projection vector, so this agrees with
"within ε of 1"), and the triangle predicate is true exactly when the
(possibly recomputed) cached plane normal `n` is nonzero and satisfies
`(n ⬝ v)² ≤ ε² |n|²`.  The edge predicate writes only a module-private
scratch vector, but the triangle predicate is **not** argument-pure: on a
stale triangle it stores the recomputed plane on its argument
(`tri.update()`), as the fourth conjunct records. -/
theorem claim_C7_amended_degeneracy_predicates :
    (∀ line pv, isProjectedLineDegenerate line pv = true ↔
        (Seg.delta line ≠ Vec3.zero ∧
          (Vec3.dot (Seg.delta line) pv) ^ 2 ≥
            (1 - tluEPSILON) ^ 2 * Vec3.normSq (Seg.delta line)))
    ∧ (∀ d v : Vec3,
        (Vec3.dot d v) ^ 2 + Vec3.normSq (Vec3.cross d v) =
          Vec3.normSq d * Vec3.normSq v)
    ∧ (∀ t pv, isProjectedTriangleDegenerateS t pv = isYProjectedTriangleDegenerateS t pv)
    ∧ (∀ t pv, (isYProjectedTriangleDegenerateS t pv).2 =
        if t.needsUpdate then t.update else t)
    ∧ (∀ t pv, (isYProjectedTriangleDegenerateS t pv).1 = true ↔
        ((if t.needsUpdate then t.update else t).planeNormal ≠ Vec3.zero ∧
          (Vec3.dot (if t.needsUpdate then t.update else t).planeNormal pv) ^ 2 ≤
            tluEPSILON ^ 2 *
              Vec3.normSq (if t.needsUpdate then t.update else t).planeNormal)) := by
  refine ⟨?_, ?_, ?_, ?_, ?_⟩
  · intro line pv
    by_cases h : Seg.delta line = Vec3.zero
    · simp [isProjectedLineDegenerate, h]
    · simp [isProjectedLineDegenerate, h, ge_iff_le]
  · intro d v
    simp only [Vec3.dot, Vec3.cross, Vec3.normSq]
    ring
  · intro t pv
    rfl
  · intro t pv
    by_cases h : (if t.needsUpdate then ExtTri.update t else t).planeNormal = Vec3.zero
    · simp [isYProjectedTriangleDegenerateS, h]
    · simp [isYProjectedTriangleDegenerateS, h]
  · intro t pv
    by_cases h : (if t.needsUpdate then ExtTri.update t else t).planeNormal = Vec3.zero
    · simp [isYProjectedTriangleDegenerateS, h]
    · simp [isYProjectedTriangleDegenerateS, h]

/-- C8, counterexample: a triangle whose flattened silhouette grazes the
line's carrier at a single vertex (here the vertex `(0,3,5)` touching the
segment `(0,2,0)-(0,2,10)` under the Y projection).  The flattened
triangle has area 2, and the 1D spans along the line direction are
`[0, 100]` and `[30, 70]` (scaled by `|d|`), which are not disjoint — yet
the source returns `null`, because its edge sweep records only one
crossing point.  This refutes the claimed "no overlap iff near-zero area
or disjoint spans". -/
theorem claim_C8_counterexample_vertex_graze :
    getProjectedLineOverlap ⟨⟨0, 2, 0⟩, ⟨0, 2, 10⟩⟩
        ⟨⟨0, 3, 5⟩, ⟨1, 3, 3⟩, ⟨1, 3, 7⟩⟩ ⟨0, 1, 0⟩ = none
    ∧ overlapAreaDegenerate (dominantAxis ⟨0, 1, 0⟩)
        ⟨⟨0, 3, 5⟩, ⟨1, 3, 3⟩, ⟨1, 3, 7⟩⟩ = false
    ∧ ¬ specSpansDisjoint ⟨⟨0, 2, 0⟩, ⟨0, 2, 10⟩⟩
        ⟨⟨0, 3, 5⟩, ⟨1, 3, 3⟩, ⟨1, 3, 7⟩⟩ ⟨0, 1, 0⟩ := by
  refine ⟨?_, ?_, ?_⟩
  · norm_num [getProjectedLineOverlap, dominantAxis, flattenTri, flattenSeg,
      flattenVec, overlapAreaDegenerate, sweepCrossings, sweepContribution,
      sweepNear, sweepIntersectLine, sweepDist, flatUnitNormal, axisUnit,
      axisCoord, orientedChord, spanSeparated, AREA_EPSILON, DIST_EPSILON,
      Tri.rawNormal, Vec3.cross, Vec3.sub, Vec3.dot, Vec3.normSq, Vec3.add,
      Vec3.smul, Vec3.zero, Seg.delta, Seg.at', List.filterMap_cons,
      List.filterMap_nil]
  · norm_num [overlapAreaDegenerate, dominantAxis, flattenTri, flattenVec,
      AREA_EPSILON, Tri.rawNormal, Vec3.cross, Vec3.sub, Vec3.normSq, Vec3.dot]
  · norm_num [specSpansDisjoint, dominantAxis, flattenTri, flattenSeg,
      flattenVec, Tri.points, Seg.delta, Vec3.sub, Vec3.dot, Vec3.normSq]

/-- C8, amended: the overlap solver reports no overlap exactly when the
flattened triangle has near-zero area, **or the edge sweep records fewer
than two crossing points** (the line's carrier misses or merely grazes the
flattened triangle), or the two 1D spans are separated or merely touching
(`e1 ≤ s2 || e2 ≤ s1`, non-strict); otherwise it returns the sub-segment
of the original, unflattened segment obtained by linear interpolation of
the intersected 1D interval.  (On a segment whose flattened delta is zero
the source computes with `NaN` and also returns no overlap; the embedding
is faithful for nonzero flattened deltas.) -/
theorem claim_C8_amended_no_overlap_conditions (line : Seg) (tri : Tri) (pv : Vec3) :
    (getProjectedLineOverlap line tri pv = none ↔
      (overlapAreaDegenerate (dominantAxis pv) tri = true ∨
        (sweepCrossings (dominantAxis pv) (flattenTri (dominantAxis pv) tri)
            (flattenSeg (dominantAxis pv) line)).length < 2 ∨
        ∃ p1 p2 rest,
          sweepCrossings (dominantAxis pv) (flattenTri (dominantAxis pv) tri)
              (flattenSeg (dominantAxis pv) line) = p1 :: p2 :: rest ∧
            spanSeparated (flattenSeg (dominantAxis pv) line)
              (orientedChord (flattenSeg (dominantAxis pv) line) p1 p2).1
              (orientedChord (flattenSeg (dominantAxis pv) line) p1 p2).2 = true))
    ∧ (∀ out, getProjectedLineOverlap line tri pv = some out →
        ∃ p1 p2 rest,
          sweepCrossings (dominantAxis pv) (flattenTri (dominantAxis pv) tri)
              (flattenSeg (dominantAxis pv) line) = p1 :: p2 :: rest ∧
            out = ⟨Seg.at' line
                (max 0 (Vec3.dot
                    (Vec3.sub (orientedChord (flattenSeg (dominantAxis pv) line) p1 p2).1
                      (flattenSeg (dominantAxis pv) line).s)
                    (Seg.delta (flattenSeg (dominantAxis pv) line))) /
                  Vec3.normSq (Seg.delta (flattenSeg (dominantAxis pv) line))),
              Seg.at' line
                (min (Vec3.normSq (Seg.delta (flattenSeg (dominantAxis pv) line)))
                    (Vec3.dot
                      (Vec3.sub (orientedChord (flattenSeg (dominantAxis pv) line) p1 p2).2
                        (flattenSeg (dominantAxis pv) line).s)
                      (Seg.delta (flattenSeg (dominantAxis pv) line))) /
                  Vec3.normSq (Seg.delta (flattenSeg (dominantAxis pv) line)))⟩) := by
  set k := dominantAxis pv with hk
  set ft := flattenTri k tri with hft
  set fl := flattenSeg k line with hfl
  constructor
  · by_cases hA : overlapAreaDegenerate k tri = true
    · simp [getProjectedLineOverlap, hA, ← hk]
    · rcases hcr : sweepCrossings k ft fl with _ | ⟨p1, _ | ⟨p2, rest⟩⟩
      · simp [getProjectedLineOverlap, hA, ← hk, ← hft, ← hfl, hcr]
      · simp [getProjectedLineOverlap, hA, ← hk, ← hft, ← hfl, hcr]
      · by_cases hs : spanSeparated fl (orientedChord fl p1 p2).1
            (orientedChord fl p1 p2).2 = true
        · simp only [getProjectedLineOverlap, ← hk, ← hft, ← hfl, hcr, hA,
            if_neg, Bool.not_eq_true, hs, if_true]
          constructor
          · intro _
            exact Or.inr (Or.inr ⟨p1, p2, rest, rfl, hs⟩)
          · intro _
            simp [hs]
        · simp only [getProjectedLineOverlap, ← hk, ← hft, ← hfl, hcr]
          simp only [hA, Bool.false_eq_true, if_false, hs, reduceIte]
          constructor
          · intro habs
            exact absurd habs (by simp)
          · rintro (h | h | ⟨q1, q2, qrest, hq, hsep⟩)
            · exact h.elim
            · simp at h
              omega
            · injection hq with h1 h2
              injection h2 with h2 h3
              subst h1
              subst h2
              exact absurd hsep hs
  · intro out hout
    by_cases hA : overlapAreaDegenerate k tri = true
    · rw [getProjectedLineOverlap] at hout
      simp [hA, ← hk] at hout
    · rcases hcr : sweepCrossings k ft fl with _ | ⟨p1, _ | ⟨p2, rest⟩⟩
      · rw [getProjectedLineOverlap] at hout
        simp [hA, ← hk, ← hft, ← hfl, hcr] at hout
      · rw [getProjectedLineOverlap] at hout
        simp [hA, ← hk, ← hft, ← hfl, hcr] at hout
      · refine ⟨p1, p2, rest, rfl, ?_⟩
        rw [getProjectedLineOverlap] at hout
        by_cases hs : spanSeparated fl (orientedChord fl p1 p2).1
            (orientedChord fl p1 p2).2 = true
        · simp [hA, ← hk, ← hft, ← hfl, hcr, hs] at hout
        · simp only [hA, ← hk, ← hft, ← hfl, hcr, Bool.false_eq_true, if_false,
            hs, reduceIte, Option.some.injEq, Bool.not_eq_true] at hout
          exact hout.symm

/-- Witness for the amended C8 theorem: a triangle properly crossed by the
line's carrier; the positive branch yields the interpolated sub-segment
`(0,2,3)-(0,2,7)` of the original line. -/
theorem claim_C8_amended_witness :
    ∃ p1 p2 rest,
      sweepCrossings (dominantAxis ⟨0, 1, 0⟩)
          (flattenTri (dominantAxis ⟨0, 1, 0⟩) ⟨⟨-1, 3, 3⟩, ⟨1, 3, 3⟩, ⟨0, 3, 7⟩⟩)
          (flattenSeg (dominantAxis ⟨0, 1, 0⟩) ⟨⟨0, 2, 0⟩, ⟨0, 2, 10⟩⟩) =
        p1 :: p2 :: rest ∧
        (⟨⟨0, 2, 3⟩, ⟨0, 2, 7⟩⟩ : Seg) =
          ⟨Seg.at' ⟨⟨0, 2, 0⟩, ⟨0, 2, 10⟩⟩
              (max 0 (Vec3.dot
                  (Vec3.sub
                    (orientedChord
                      (flattenSeg (dominantAxis ⟨0, 1, 0⟩) ⟨⟨0, 2, 0⟩, ⟨0, 2, 10⟩⟩) p1 p2).1
                    (flattenSeg (dominantAxis ⟨0, 1, 0⟩) ⟨⟨0, 2, 0⟩, ⟨0, 2, 10⟩⟩).s)
                  (Seg.delta (flattenSeg (dominantAxis ⟨0, 1, 0⟩) ⟨⟨0, 2, 0⟩, ⟨0, 2, 10⟩⟩))) /
                Vec3.normSq
                  (Seg.delta (flattenSeg (dominantAxis ⟨0, 1, 0⟩) ⟨⟨0, 2, 0⟩, ⟨0, 2, 10⟩⟩))),
            Seg.at' ⟨⟨0, 2, 0⟩, ⟨0, 2, 10⟩⟩
              (min (Vec3.normSq
                    (Seg.delta (flattenSeg (dominantAxis ⟨0, 1, 0⟩) ⟨⟨0, 2, 0⟩, ⟨0, 2, 10⟩⟩)))
                  (Vec3.dot
                    (Vec3.sub
                      (orientedChord
                        (flattenSeg (dominantAxis ⟨0, 1, 0⟩) ⟨⟨0, 2, 0⟩, ⟨0, 2, 10⟩⟩) p1 p2).2
                      (flattenSeg (dominantAxis ⟨0, 1, 0⟩) ⟨⟨0, 2, 0⟩, ⟨0, 2, 10⟩⟩).s)
                    (Seg.delta (flattenSeg (dominantAxis ⟨0, 1, 0⟩) ⟨⟨0, 2, 0⟩, ⟨0, 2, 10⟩⟩))) /
                Vec3.normSq
                  (Seg.delta (flattenSeg (dominantAxis ⟨0, 1, 0⟩) ⟨⟨0, 2, 0⟩, ⟨0, 2, 10⟩⟩)))⟩ :=
  (claim_C8_amended_no_overlap_conditions ⟨⟨0, 2, 0⟩, ⟨0, 2, 10⟩⟩
      ⟨⟨-1, 3, 3⟩, ⟨1, 3, 3⟩, ⟨0, 3, 7⟩⟩ ⟨0, 1, 0⟩).2
    ⟨⟨0, 2, 3⟩, ⟨0, 2, 7⟩⟩
    (by norm_num [getProjectedLineOverlap, dominantAxis, flattenTri, flattenSeg,
      flattenVec, overlapAreaDegenerate, sweepCrossings, sweepContribution,
      sweepNear, sweepIntersectLine, sweepDist, flatUnitNormal, axisUnit,
      axisCoord, orientedChord, spanSeparated, AREA_EPSILON, DIST_EPSILON,
      Tri.rawNormal, Vec3.cross, Vec3.sub, Vec3.dot, Vec3.normSq, Vec3.add,
      Vec3.smul, Vec3.zero, Seg.delta, Seg.at', List.filterMap_cons,
      List.filterMap_nil, Seg.mk.injEq, Vec3.mk.injEq])

/-- C2, amended: the Self-Intersection Detector processes each unordered
pair of distinct triangles **twice**, once per ordering — the only skip is
`_tri.equals(tri2)` against the outer triangle itself — so when both
orderings accept, the pair's intersection segment is emitted once for each
ordering. -/
theorem claim_C2_amended_pair_processed_per_ordering
    (tris : List Tri) (pv : Vec3) (interTest : Tri → Tri → Option Seg)
    (t t2 : Tri) (ht : t ∈ tris) (ht2 : t2 ∈ tris) (s1 s2 : Seg)
    (h1 : intersectionEmit interTest pv t t2 = some s1)
    (h2 : intersectionEmit interTest pv t2 t = some s2) :
    s1 ∈ generateIntersectionEdges tris pv interTest ∧
      s2 ∈ generateIntersectionEdges tris pv interTest := by
  unfold generateIntersectionEdges
  exact ⟨List.mem_flatMap.mpr ⟨t, ht, List.mem_filterMap.mpr ⟨t2, ht2, h1⟩⟩,
    List.mem_flatMap.mpr ⟨t2, ht2, List.mem_filterMap.mpr ⟨t, ht, h2⟩⟩⟩

set_option maxHeartbeats 2000000 in
/-- Witness for the amended C2 theorem on the crossing-plates pair. -/
theorem claim_C2_amended_witness :
    (⟨⟨0, 1 / 10 ^ 6, 0⟩, ⟨0, 1 / 10 ^ 6, 2⟩⟩ : Seg) ∈
        generateIntersectionEdges
          [⟨⟨-1, 0, 0⟩, ⟨1, 0, 0⟩, ⟨0, 0, 2⟩⟩, ⟨⟨0, -1, 0⟩, ⟨0, 1, 0⟩, ⟨0, 0, 2⟩⟩]
          ⟨0, 1, 0⟩ (fun _ _ => some ⟨⟨0, 0, 0⟩, ⟨0, 0, 2⟩⟩) ∧
      (⟨⟨0, 1 / 10 ^ 6, 0⟩, ⟨0, 1 / 10 ^ 6, 2⟩⟩ : Seg) ∈
        generateIntersectionEdges
          [⟨⟨-1, 0, 0⟩, ⟨1, 0, 0⟩, ⟨0, 0, 2⟩⟩, ⟨⟨0, -1, 0⟩, ⟨0, 1, 0⟩, ⟨0, 0, 2⟩⟩]
          ⟨0, 1, 0⟩ (fun _ _ => some ⟨⟨0, 0, 0⟩, ⟨0, 0, 2⟩⟩) :=
  claim_C2_amended_pair_processed_per_ordering _ _ _
    ⟨⟨-1, 0, 0⟩, ⟨1, 0, 0⟩, ⟨0, 0, 2⟩⟩ ⟨⟨0, -1, 0⟩, ⟨0, 1, 0⟩, ⟨0, 0, 2⟩⟩
    (by decide) (by decide) _ _
    (by norm_num [intersectionEmit, triEquals, nearParallelNormals,
      isLineTriangleEdge, offsetVector, dominantAxis, OFFSET_EPSILON, tluEPSILON,
      Tri.rawNormal, Vec3.cross, Vec3.sub, Vec3.dot, Vec3.normSq, Vec3.distSq,
      Vec3.add, Vec3.zero, axisCoord])
    (by norm_num [intersectionEmit, triEquals, nearParallelNormals,
      isLineTriangleEdge, offsetVector, dominantAxis, OFFSET_EPSILON, tluEPSILON,
      Tri.rawNormal, Vec3.cross, Vec3.sub, Vec3.dot, Vec3.normSq, Vec3.distSq,
      Vec3.add, Vec3.zero, axisCoord])


/-- The axis selected by the source's `absX >= absY && absX >= absZ`
branch chain carries the largest absolute component. -/
theorem dominantAxis_abs_max (v : Vec3) (ax : Axis) :
    |axisCoord ax v| ≤ |axisCoord (dominantAxis v) v| := by
  unfold dominantAxis
  split
  · rename_i h
    cases ax
    · simp [axisCoord]
    · simpa [axisCoord] using h.1
    · simpa [axisCoord] using h.2
  · split
    · rename_i h
      cases ax
      · simpa [axisCoord] using h.1
      · simp [axisCoord]
      · simpa [axisCoord] using h.2
    · rename_i h1 h2
      rw [not_and_or, not_le, not_le] at h1 h2
      rcases h1 with h1 | h1 <;> rcases h2 with h2 | h2 <;>
        cases ax <;> simp [axisCoord] <;> linarith

/-- C10: every candidate edge the Self-Intersection Detector emits is the
accepted triangle-triangle intersection segment with **both** endpoints
translated by exactly `OFFSET_EPSILON = 1e-6` in the positive direction of
the coordinate axis with the largest absolute component of the projection
vector; in particular the emitted edge differs from the exact intersection
segment. -/
theorem claim_C10_emitted_edges_are_offset
    (tris : List Tri) (pv : Vec3) (interTest : Tri → Tri → Option Seg)
    (e : Seg) (he : e ∈ generateIntersectionEdges tris pv interTest) :
    ∃ t t2 raw, t ∈ tris ∧ t2 ∈ tris ∧ interTest t t2 = some raw ∧
      e.s = Vec3.add raw.s (offsetVector pv) ∧
      e.e = Vec3.add raw.e (offsetVector pv) ∧
      e ≠ raw ∧
      offsetVector pv = Vec3.smul OFFSET_EPSILON (axisUnit (dominantAxis pv)) ∧
      (∀ ax : Axis, |axisCoord ax pv| ≤ |axisCoord (dominantAxis pv) pv|) := by
  unfold generateIntersectionEdges at he
  obtain ⟨t, ht, he⟩ := List.mem_flatMap.mp he
  obtain ⟨t2, ht2, hemit⟩ := List.mem_filterMap.mp he
  unfold intersectionEmit at hemit
  split at hemit
  · exact absurd hemit (by simp)
  · split at hemit
    · exact absurd hemit (by simp)
    · split at hemit
      · exact absurd hemit (by simp)
      · rename_i seg hseg
        split at hemit
        · injection hemit with hinj
          refine ⟨t, t2, seg, ht, ht2, hseg, ?_⟩
          have hoff : offsetVector pv =
              Vec3.smul OFFSET_EPSILON (axisUnit (dominantAxis pv)) := by
            unfold offsetVector
            cases dominantAxis pv <;>
              simp [axisUnit, Vec3.smul, OFFSET_EPSILON]
          subst hinj
          refine ⟨rfl, rfl, ?_, hoff, fun ax => dominantAxis_abs_max pv ax⟩
          intro hcon
          have hx := congrArg (fun l : Seg => l.s.x) hcon
          have hy := congrArg (fun l : Seg => l.s.y) hcon
          have hz := congrArg (fun l : Seg => l.s.z) hcon
          simp only [Vec3.add] at hx hy hz
          unfold offsetVector at hx hy hz
          rcases hda : dominantAxis pv with _ | _ | _ <;>
            rw [hda] at hx hy hz <;> norm_num [OFFSET_EPSILON] at hx hy hz
        · exact absurd hemit (by simp)

set_option maxHeartbeats 2000000 in
/-- Witness for C10 on the crossing-plates pair: the emitted edge is the
intersection segment shifted by `1e-6` along +Y. -/
theorem claim_C10_witness :
    ∃ t t2 raw,
      t ∈ [(⟨⟨-1, 0, 0⟩, ⟨1, 0, 0⟩, ⟨0, 0, 2⟩⟩ : Tri),
            ⟨⟨0, -1, 0⟩, ⟨0, 1, 0⟩, ⟨0, 0, 2⟩⟩] ∧
      t2 ∈ [(⟨⟨-1, 0, 0⟩, ⟨1, 0, 0⟩, ⟨0, 0, 2⟩⟩ : Tri),
            ⟨⟨0, -1, 0⟩, ⟨0, 1, 0⟩, ⟨0, 0, 2⟩⟩] ∧
      (fun _ _ => some (⟨⟨0, 0, 0⟩, ⟨0, 0, 2⟩⟩ : Seg)) t t2 = some raw ∧
      (⟨⟨0, 1 / 10 ^ 6, 0⟩, ⟨0, 1 / 10 ^ 6, 2⟩⟩ : Seg).s =
        Vec3.add raw.s (offsetVector ⟨0, 1, 0⟩) ∧
      (⟨⟨0, 1 / 10 ^ 6, 0⟩, ⟨0, 1 / 10 ^ 6, 2⟩⟩ : Seg).e =
        Vec3.add raw.e (offsetVector ⟨0, 1, 0⟩) ∧
      (⟨⟨0, 1 / 10 ^ 6, 0⟩, ⟨0, 1 / 10 ^ 6, 2⟩⟩ : Seg) ≠ raw ∧
      offsetVector ⟨0, 1, 0⟩ =
        Vec3.smul OFFSET_EPSILON (axisUnit (dominantAxis ⟨0, 1, 0⟩)) ∧
      (∀ ax : Axis,
        |axisCoord ax ⟨0, 1, 0⟩| ≤ |axisCoord (dominantAxis ⟨0, 1, 0⟩) ⟨0, 1, 0⟩|) :=
  claim_C10_emitted_edges_are_offset
    [⟨⟨-1, 0, 0⟩, ⟨1, 0, 0⟩, ⟨0, 0, 2⟩⟩, ⟨⟨0, -1, 0⟩, ⟨0, 1, 0⟩, ⟨0, 0, 2⟩⟩]
    ⟨0, 1, 0⟩ (fun _ _ => some ⟨⟨0, 0, 0⟩, ⟨0, 0, 2⟩⟩)
    ⟨⟨0, 1 / 10 ^ 6, 0⟩, ⟨0, 1 / 10 ^ 6, 2⟩⟩
    (by
      have h : generateIntersectionEdges
          [⟨⟨-1, 0, 0⟩, ⟨1, 0, 0⟩, ⟨0, 0, 2⟩⟩, ⟨⟨0, -1, 0⟩, ⟨0, 1, 0⟩, ⟨0, 0, 2⟩⟩]
          ⟨0, 1, 0⟩ (fun _ _ => some ⟨⟨0, 0, 0⟩, ⟨0, 0, 2⟩⟩)
          = [⟨⟨0, 1 / 10 ^ 6, 0⟩, ⟨0, 1 / 10 ^ 6, 2⟩⟩,
             ⟨⟨0, 1 / 10 ^ 6, 0⟩, ⟨0, 1 / 10 ^ 6, 2⟩⟩] := by
        simp only [generateIntersectionEdges, List.flatMap_cons, List.flatMap_nil,
          List.filterMap_cons, List.filterMap_nil]
        norm_num [intersectionEmit, triEquals, nearParallelNormals,
          isLineTriangleEdge, offsetVector, dominantAxis, OFFSET_EPSILON, tluEPSILON,
          Tri.rawNormal, Vec3.cross, Vec3.sub, Vec3.dot, Vec3.normSq, Vec3.distSq,
          Vec3.add, Vec3.zero, Seg.mk.injEq, Vec3.mk.injEq, axisCoord]
      rw [h]
      exact List.mem_cons_self _ _)

/-- The list of visited triangles is always an initial portion of the
query's candidate list. -/
theorem shapecastRun_visited_take (update : Tri → List (ℚ × ℚ) → List (ℚ × ℚ)) :
    ∀ (ts : List Tri) (st : List (ℚ × ℚ)),
      ∃ k, k ≤ ts.length ∧ (shapecastRun update ts st).1 = ts.take k := by
  intro ts
  induction ts with
  | nil => exact fun st => ⟨0, by simp [shapecastRun]⟩
  | cons t ts ih =>
    intro st
    by_cases h : hiddenExitSignal (update t st) = true
    · exact ⟨1, by simp [shapecastRun, h]⟩
    · obtain ⟨k, hk, hrun⟩ := ih (update t st)
      exact ⟨k + 1, by simpa using hk, by simp [shapecastRun, h, hrun]⟩

/-- If the traversal stopped before exhausting the candidates, the state
after the visited triangles signals completion. -/
theorem shapecastRun_stop_signal (update : Tri → List (ℚ × ℚ) → List (ℚ × ℚ)) :
    ∀ (ts : List Tri) (st : List (ℚ × ℚ)),
      (shapecastRun update ts st).1.length < ts.length →
        hiddenExitSignal (stateAfter update st (shapecastRun update ts st).1) = true := by
  intro ts
  induction ts with
  | nil => simp [shapecastRun]
  | cons t ts ih =>
    intro st hlt
    by_cases h : hiddenExitSignal (update t st) = true
    · simp [shapecastRun, h, stateAfter]
    · have hrun : (shapecastRun update (t :: ts) st).1 =
          t :: (shapecastRun update ts (update t st)).1 := by
        simp [shapecastRun, h]
      rw [hrun] at hlt ⊢
      simp only [List.length_cons, Nat.add_lt_add_iff_right] at hlt
      simpa [stateAfter] using ih (update t st) hlt

/-- Once the merged set signals, no further triangle is visited: if the
state after the first `m ≥ 1` candidates signals completion, the traversal
visits at most `m` triangles. -/
theorem shapecastRun_stops_at_signal (update : Tri → List (ℚ × ℚ) → List (ℚ × ℚ)) :
    ∀ (ts : List Tri) (st : List (ℚ × ℚ)) (m : ℕ), 1 ≤ m →
      hiddenExitSignal (stateAfter update st (ts.take m)) = true →
        (shapecastRun update ts st).1.length ≤ m := by
  intro ts
  induction ts with
  | nil => simp [shapecastRun]
  | cons t ts ih =>
    intro st m hm hsig
    by_cases h : hiddenExitSignal (update t st) = true
    · simpa [shapecastRun, h] using hm
    · obtain ⟨m', rfl⟩ : ∃ m', m = m' + 1 := ⟨m - 1, by omega⟩
      rw [List.take_succ_cons] at hsig
      simp only [stateAfter, List.foldl_cons] at hsig
      rcases Nat.eq_zero_or_pos m' with hm0 | hm1
      · subst hm0
        simp only [List.take_zero] at hsig
        exact absurd hsig (by simpa [stateAfter] using h)
      · have := ih (update t st) m' hm1 (by simpa [stateAfter] using hsig)
        simp only [shapecastRun, h, if_false]
        simp only [Bool.false_eq_true, if_false, List.length_cons]
        omega

/-- C4: the occlusion query's per-triangle callback signals early
termination exactly when the most recent interval of the (merged) hidden
interval set is exactly `[0, 1]`, and the traversal — which per the
spatial-index contract aborts as soon as a callback returns `true` —
visits no further triangle once that holds: the visited triangles form an
initial portion of the candidates, a stop before the end happens only with
the signal raised, and a raised signal after `m ≥ 1` candidates bounds the
number of visits by `m`. -/
theorem claim_C4_early_exit_iff_full_interval
    (update : Tri → List (ℚ × ℚ) → List (ℚ × ℚ)) (ts : List Tri)
    (st : List (ℚ × ℚ)) :
    (∀ s : List (ℚ × ℚ), hiddenExitSignal s = true ↔ s.getLast? = some (0, 1))
    ∧ (∃ k, k ≤ ts.length ∧ (shapecastRun update ts st).1 = ts.take k)
    ∧ ((shapecastRun update ts st).1.length < ts.length →
        hiddenExitSignal (stateAfter update st (shapecastRun update ts st).1) = true)
    ∧ (∀ m, 1 ≤ m →
        hiddenExitSignal (stateAfter update st (ts.take m)) = true →
          (shapecastRun update ts st).1.length ≤ m) := by
  refine ⟨?_, shapecastRun_visited_take update ts st,
    shapecastRun_stop_signal update ts st,
    fun m => shapecastRun_stops_at_signal update ts st m⟩
  intro s
  unfold hiddenExitSignal
  cases h : s.getLast? with
  | none => simp [h]
  | some p => simp [h, Prod.ext_iff]

/-- Witness for C4: a constant update that immediately produces the full
interval `[0, 1]`; of the two candidate triangles only the first is
visited. -/
theorem claim_C4_witness :
    hiddenExitSignal [((0 : ℚ), (1 : ℚ))] = true ∧
      (shapecastRun (fun _ _ => [((0 : ℚ), (1 : ℚ))])
          [⟨⟨0, 0, 0⟩, ⟨1, 0, 0⟩, ⟨0, 1, 0⟩⟩, ⟨⟨2, 0, 0⟩, ⟨3, 0, 0⟩, ⟨2, 1, 0⟩⟩]
          []).1.length ≤ 1 := by
  have h := claim_C4_early_exit_iff_full_interval
    (fun _ _ => [((0 : ℚ), (1 : ℚ))])
    [⟨⟨0, 0, 0⟩, ⟨1, 0, 0⟩, ⟨0, 1, 0⟩⟩, ⟨⟨2, 0, 0⟩, ⟨3, 0, 0⟩, ⟨2, 1, 0⟩⟩] []
  refine ⟨(h.1 [((0 : ℚ), (1 : ℚ))]).mpr (by simp), ?_⟩
  exact h.2.2.2 1 (by norm_num) (by simp [stateAfter, hiddenExitSignal])

/-- Inserting into a list is a permutation of consing. -/
theorem insertByKey_perm {α : Type} (f : α → ℚ) (x : α) :
    ∀ l : List α, List.Perm (insertByKey f x l) (x :: l) := by
  intro l
  induction l with
  | nil => simp [insertByKey]
  | cons y ys ih =>
    by_cases h : f x ≤ f y
    · simp [insertByKey, h]
    · simp only [insertByKey, h, if_false]
      exact ((ih.cons y).trans (List.Perm.swap x y ys))

/-- The key-based insertion sort permutes its input. -/
theorem sortByKey_perm {α : Type} (f : α → ℚ) :
    ∀ l : List α, List.Perm (sortByKey f l) l := by
  intro l
  induction l with
  | nil => simp [sortByKey]
  | cons y ys ih =>
    exact ((insertByKey_perm f y (sortByKey f ys)).trans (ih.cons y))

/-- Insertion preserves sortedness by the key. -/
theorem insertByKey_sorted {α : Type} (f : α → ℚ) (x : α) :
    ∀ l : List α, List.Pairwise (fun p q => f p ≤ f q) l →
      List.Pairwise (fun p q => f p ≤ f q) (insertByKey f x l) := by
  intro l
  induction l with
  | nil => simp [insertByKey]
  | cons y ys ih =>
    intro hs
    rw [List.pairwise_cons] at hs
    by_cases h : f x ≤ f y
    · rw [insertByKey, if_pos h, List.pairwise_cons]
      refine ⟨?_, List.pairwise_cons.mpr hs⟩
      intro q hq
      rcases List.mem_cons.mp hq with rfl | hq
      · exact h
      · exact h.trans (hs.1 q hq)
    · rw [insertByKey, if_neg h, List.pairwise_cons]
      refine ⟨?_, ih hs.2⟩
      intro q hq
      rcases List.mem_cons.mp ((insertByKey_perm f x ys).mem_iff.mp hq) with rfl | hq
      · exact le_of_lt (lt_of_not_le h)
      · exact hs.1 q hq

/-- The key-based insertion sort sorts by the key. -/
theorem sortByKey_sorted {α : Type} (f : α → ℚ) :
    ∀ l : List α, List.Pairwise (fun p q => f p ≤ f q) (sortByKey f l) := by
  intro l
  induction l with
  | nil => simp [sortByKey]
  | cons y ys ih => exact insertByKey_sorted f y (sortByKey f ys) ih

/-- Unfolding lemma for membership in a union of intervals. -/
theorem memUnion_cons (p : ℚ × ℚ) (l : List (ℚ × ℚ)) (x : ℚ) :
    memUnion (p :: l) x ↔ (p.1 ≤ x ∧ x ≤ p.2) ∨ memUnion l x := by
  simp [memUnion]

/-- The union of a list of intervals only depends on its members. -/
theorem memUnion_of_perm {l l' : List (ℚ × ℚ)} (h : List.Perm l l') (x : ℚ) :
    memUnion l x ↔ memUnion l' x := by
  unfold memUnion
  constructor
  · rintro ⟨p, hp, hx⟩
    exact ⟨p, h.mem_iff.mp hp, hx⟩
  · rintro ⟨p, hp, hx⟩
    exact ⟨p, h.mem_iff.mpr hp, hx⟩

/-- Merging preserves any lower bound on the interval starts. -/
theorem mergeTouching_lower (c : ℚ) :
    ∀ l : List (ℚ × ℚ), (∀ p ∈ l, c ≤ p.1) →
      ∀ q ∈ mergeTouching l, c ≤ q.1 := by
  intro l
  induction l using mergeTouching.induct with
  | case1 => simp [mergeTouching]
  | case2 a =>
    intro h q hq
    rw [mergeTouching] at hq
    rcases List.mem_singleton.mp hq with rfl
    exact h q (by simp)
  | case3 a b r hb ih =>
    intro h q hq
    rw [mergeTouching, if_pos hb] at hq
    refine ih ?_ q hq
    intro p hp
    rcases List.mem_cons.mp hp with rfl | hp
    · exact h a (by simp)
    · exact h p (by simp [hp])
  | case4 a b r hb ih =>
    intro h q hq
    rw [mergeTouching, if_neg hb] at hq
    rcases List.mem_cons.mp hq with rfl | hq
    · exact h q (by simp)
    · refine ih ?_ q hq
      intro p hp
      exact h p (List.mem_cons_of_mem a hp)

/-- On a start-sorted list, merging produces strictly separated intervals. -/
theorem mergeTouching_disjoint :
    ∀ l : List (ℚ × ℚ), List.Pairwise (fun p q => p.1 ≤ q.1) l →
      List.Pairwise (fun p q => p.2 < q.1) (mergeTouching l) := by
  intro l
  induction l using mergeTouching.induct with
  | case1 => simp [mergeTouching]
  | case2 a => simp [mergeTouching]
  | case3 a b r hb ih =>
    intro hs
    rw [List.pairwise_cons] at hs
    rw [mergeTouching, if_pos hb]
    refine ih ?_
    rw [List.pairwise_cons]
    refine ⟨?_, (List.pairwise_cons.mp hs.2).2⟩
    intro q hq
    exact hs.1 q (List.mem_cons_of_mem b hq)
  | case4 a b r hb ih =>
    intro hs
    rw [List.pairwise_cons] at hs
    rw [mergeTouching, if_neg hb, List.pairwise_cons]
    have hblow : ∀ p ∈ b :: r, b.1 ≤ p.1 := by
      intro p hp
      rcases List.mem_cons.mp hp with rfl | hp
      · exact le_refl _
      · exact (List.pairwise_cons.mp hs.2).1 p hp
    refine ⟨?_, ih hs.2⟩
    intro q hq
    exact lt_of_lt_of_le (lt_of_not_le hb) (mergeTouching_lower b.1 (b :: r) hblow q hq)

/-- Merging preserves well-formedness (`t0 ≤ t1`) of the intervals. -/
theorem mergeTouching_wf :
    ∀ l : List (ℚ × ℚ), (∀ p ∈ l, p.1 ≤ p.2) →
      ∀ q ∈ mergeTouching l, q.1 ≤ q.2 := by
  intro l
  induction l using mergeTouching.induct with
  | case1 => simp [mergeTouching]
  | case2 a =>
    intro h q hq
    rw [mergeTouching] at hq
    rcases List.mem_singleton.mp hq with rfl
    exact h q (by simp)
  | case3 a b r hb ih =>
    intro h q hq
    rw [mergeTouching, if_pos hb] at hq
    refine ih ?_ q hq
    intro p hp
    rcases List.mem_cons.mp hp with rfl | hp
    · exact le_trans (h a (by simp)) (le_max_left _ _)
    · exact h p (by simp [hp])
  | case4 a b r hb ih =>
    intro h q hq
    rw [mergeTouching, if_neg hb] at hq
    rcases List.mem_cons.mp hq with rfl | hq
    · exact h q (by simp)
    · exact ih (fun p hp => h p (List.mem_cons_of_mem a hp)) q hq

/-- On a start-sorted list, merging preserves the union of the intervals. -/
theorem mergeTouching_memUnion :
    ∀ l : List (ℚ × ℚ), List.Pairwise (fun p q => p.1 ≤ q.1) l →
      ∀ x, (memUnion (mergeTouching l) x ↔ memUnion l x) := by
  intro l
  induction l using mergeTouching.induct with
  | case1 =>
    intro _ x
    rw [mergeTouching]
  | case2 a =>
    intro _ x
    rw [mergeTouching]
  | case3 a b r hb ih =>
    intro hs x
    rw [List.pairwise_cons] at hs
    have hab : a.1 ≤ b.1 := hs.1 b (by simp)
    have hs' : List.Pairwise (fun p q : ℚ × ℚ => p.1 ≤ q.1) ((a.1, max a.2 b.2) :: r) := by
      rw [List.pairwise_cons]
      refine ⟨?_, (List.pairwise_cons.mp hs.2).2⟩
      intro q hq
      exact hs.1 q (List.mem_cons_of_mem b hq)
    rw [mergeTouching, if_pos hb, ih hs' x]
    rw [memUnion_cons, memUnion_cons, memUnion_cons]
    constructor
    · rintro (⟨h1, h2⟩ | h)
      · by_cases hc : x ≤ a.2
        · exact Or.inl ⟨h1, hc⟩
        · refine Or.inr (Or.inl ⟨?_, ?_⟩)
          · exact le_trans hb (le_of_lt (lt_of_not_le hc))
          · rcases le_max_iff.mp h2 with h | h
            · exact absurd h hc
            · exact h
      · exact Or.inr (Or.inr h)
    · rintro (⟨h1, h2⟩ | ⟨h1, h2⟩ | h)
      · exact Or.inl ⟨h1, le_trans h2 (le_max_left _ _)⟩
      · exact Or.inl ⟨le_trans hab h1, le_trans h2 (le_max_right _ _)⟩
      · exact Or.inr h
  | case4 a b r hb ih =>
    intro hs x
    rw [List.pairwise_cons] at hs
    rw [mergeTouching, if_neg hb, memUnion_cons, memUnion_cons, ih hs.2 x]

/-- C3: modelled from the spec, `compressEdgeOverlaps` sorts the intervals
by `t0` and merges overlapping or touching neighbours; for any input list
of well-formed intervals inside `[0,1]` the result is sorted by `t0`,
pairwise disjoint (strictly separated, in fact), and covers exactly the
union of the input intervals. -/
theorem claim_C3_compress_sorted_disjoint_union (l : List (ℚ × ℚ))
    (hl : ∀ p ∈ l, 0 ≤ p.1 ∧ p.1 ≤ p.2 ∧ p.2 ≤ 1) :
    List.Pairwise (fun p q : ℚ × ℚ => p.1 ≤ q.1) (compressEdgeOverlaps l)
    ∧ List.Pairwise (fun p q : ℚ × ℚ => p.2 < q.1) (compressEdgeOverlaps l)
    ∧ ∀ x, (memUnion (compressEdgeOverlaps l) x ↔ memUnion l x) := by
  have hperm := sortByKey_perm (Prod.fst : ℚ × ℚ → ℚ) l
  have hs := sortByKey_sorted (Prod.fst : ℚ × ℚ → ℚ) l
  have hd := mergeTouching_disjoint _ hs
  have hwf : ∀ q ∈ compressEdgeOverlaps l, q.1 ≤ q.2 := by
    refine mergeTouching_wf _ ?_
    intro p hp
    exact (hl p (hperm.mem_iff.mp hp)).2.1
  refine ⟨?_, hd, ?_⟩
  · refine hd.imp_of_mem ?_
    intro p q hp _ hpq
    exact le_of_lt (lt_of_le_of_lt (hwf p hp) hpq)
  · intro x
    exact (mergeTouching_memUnion _ hs x).trans (memUnion_of_perm hperm x)

/-- Witness for C3 on the two overlapping intervals `(1/2, 1)` and
`(0, 3/4)`, which compress to the single interval `(0, 1)`. -/
theorem claim_C3_witness :
    (∀ p ∈ [((1 : ℚ) / 2, (1 : ℚ)), ((0 : ℚ), (3 : ℚ) / 4)],
        0 ≤ p.1 ∧ p.1 ≤ p.2 ∧ p.2 ≤ 1) ∧
      (List.Pairwise (fun p q : ℚ × ℚ => p.1 ≤ q.1)
          (compressEdgeOverlaps [((1 : ℚ) / 2, (1 : ℚ)), ((0 : ℚ), (3 : ℚ) / 4)])
        ∧ List.Pairwise (fun p q : ℚ × ℚ => p.2 < q.1)
            (compressEdgeOverlaps [((1 : ℚ) / 2, (1 : ℚ)), ((0 : ℚ), (3 : ℚ) / 4)])
        ∧ ∀ x, (memUnion
            (compressEdgeOverlaps [((1 : ℚ) / 2, (1 : ℚ)), ((0 : ℚ), (3 : ℚ) / 4)]) x ↔
          memUnion [((1 : ℚ) / 2, (1 : ℚ)), ((0 : ℚ), (3 : ℚ) / 4)] x)) :=
  ⟨by norm_num,
    claim_C3_compress_sorted_disjoint_union
      [((1 : ℚ) / 2, (1 : ℚ)), ((0 : ℚ), (3 : ℚ) / 4)] (by norm_num)⟩

/-- Each flood round only adds lines. -/
theorem subset_stepReach {n : ℕ} (adj : Fin n → Fin n → Bool)
    (s : Finset (Fin n)) : s ⊆ stepReach adj s :=
  Finset.subset_union_left

/-- Flood rounds are monotone. -/
theorem stepReach_mono {n : ℕ} (adj : Fin n → Fin n → Bool)
    {s t : Finset (Fin n)} (h : s ⊆ t) : stepReach adj s ⊆ stepReach adj t := by
  intro j hj
  rcases Finset.mem_union.mp hj with hj | hj
  · exact Finset.mem_union_left _ (h hj)
  · refine Finset.mem_union_right _ ?_
    rw [Finset.mem_filter] at hj ⊢
    obtain ⟨hu, i, hi, hadj⟩ := hj
    exact ⟨hu, i, h hi, hadj⟩

/-- The flood iterates form an increasing chain. -/
theorem iterate_stepReach_mono {n : ℕ} (adj : Fin n → Fin n → Bool)
    (s : Finset (Fin n)) {k m : ℕ} (h : k ≤ m) :
    (stepReach adj)^[k] s ⊆ (stepReach adj)^[m] s := by
  induction m with
  | zero =>
    rw [Nat.le_zero.mp h]
  | succ m ih =>
    rcases Nat.lt_or_ge k (m + 1) with hk | hk
    · refine (ih (by omega)).trans ?_
      rw [Function.iterate_succ_apply']
      exact subset_stepReach adj _
    · rw [Nat.le_antisymm h hk]

/-- Everything the flood collects is reachable from the seed. -/
theorem mem_iterate_reach {n : ℕ} (adj : Fin n → Fin n → Bool) (i : Fin n) :
    ∀ (k : ℕ) (j : Fin n), j ∈ (stepReach adj)^[k] {i} →
      Relation.ReflTransGen (fun p q => adj p q = true) i j := by
  intro k
  induction k with
  | zero =>
    intro j hj
    rw [Function.iterate_zero_apply, Finset.mem_singleton] at hj
    rw [hj]
  | succ k ih =>
    intro j hj
    rw [Function.iterate_succ_apply'] at hj
    rcases Finset.mem_union.mp hj with hj | hj
    · exact ih j hj
    · rw [Finset.mem_filter] at hj
      obtain ⟨_, i', hi', hadj⟩ := hj
      exact (ih i' hi').tail hadj

/-- Everything reachable from the seed is collected by some flood round. -/
theorem reach_mem_iterate {n : ℕ} (adj : Fin n → Fin n → Bool) (i : Fin n)
    (j : Fin n) (h : Relation.ReflTransGen (fun p q => adj p q = true) i j) :
    ∃ k, j ∈ (stepReach adj)^[k] {i} := by
  induction h with
  | refl => exact ⟨0, by simp⟩
  | tail hsteps hadj ih =>
    obtain ⟨k, hk⟩ := ih
    refine ⟨k + 1, ?_⟩
    rw [Function.iterate_succ_apply']
    refine Finset.mem_union_right _ ?_
    rw [Finset.mem_filter]
    exact ⟨Finset.mem_univ _, _, hk, hadj⟩

/-- `n` flood rounds saturate any graph on `n` vertices: the iterates
stabilise by a cardinality argument. -/
theorem iterate_stepReach_saturates {n : ℕ} (adj : Fin n → Fin n → Bool)
    (i : Fin n) (k : ℕ) :
    (stepReach adj)^[k] {i} ⊆ reachSet adj i := by
  have hfix : ∃ m, m ≤ n ∧
      stepReach adj ((stepReach adj)^[m] {i}) = (stepReach adj)^[m] {i} := by
    by_contra hcon
    push_neg at hcon
    have grow : ∀ m, m ≤ n → m + 1 ≤ ((stepReach adj)^[m] {i}).card := by
      intro m
      induction m with
      | zero => simp
      | succ m ih =>
        intro hm
        have h1 := ih (by omega)
        have hne := hcon m (by omega)
        have hss : (stepReach adj)^[m] {i} ⊂
            (stepReach adj)^[m + 1] {i} := by
          rw [Function.iterate_succ_apply']
          exact ssubset_of_subset_of_ne (subset_stepReach adj _)
            (fun h => hne h.symm)
        have := Finset.card_lt_card hss
        omega
    have hbig := grow n (le_refl n)
    have hsmall : ((stepReach adj)^[n] {i}).card ≤ n := by
      refine le_trans (Finset.card_le_univ _) ?_
      simp
    omega
  obtain ⟨m, hm, hfixeq⟩ := hfix
  have hstable : ∀ j, (stepReach adj)^[m + j] {i} = (stepReach adj)^[m] {i} := by
    intro j
    rw [Nat.add_comm, Function.iterate_add_apply]
    exact Function.iterate_fixed hfixeq j
  rcases le_or_lt k n with hk | hk
  · exact iterate_stepReach_mono adj _ hk
  · unfold reachSet
    have h1 : (stepReach adj)^[k] {i} = (stepReach adj)^[m] {i} := by
      have : k = m + (k - m) := by omega
      rw [this, hstable]
    rw [h1]
    exact iterate_stepReach_mono adj _ hm

/-- The flood from a seed collects exactly its reachability class. -/
theorem mem_reachSet_iff {n : ℕ} (adj : Fin n → Fin n → Bool) (i j : Fin n) :
    j ∈ reachSet adj i ↔
      Relation.ReflTransGen (fun p q => adj p q = true) i j := by
  constructor
  · exact fun h => mem_iterate_reach adj i n j h
  · intro h
    obtain ⟨k, hk⟩ := reach_mem_iterate adj i j h
    exact iterate_stepReach_saturates adj i k hk

/-- C9: after the Topology Filter's component pass, a segment survives
exactly when it survived the first pass and its connected component — the
full reachability class of the (symmetric) adjacency graph built by
`buildTopology`, which is what the depth-first flood collects, dropped
first-pass casualties included — has at least `MIN_COMPONENT_SIZE = 3`
segments, or contains a tangent-continuous (C1) segment, or contains an
axis-aligned segment; every segment whose component meets none of the
criteria is dropped.  The first conjunct identifies the collected set with
the reachability class; the second shows the class (and hence the
decision) is the same for every member of a component, so the per-line
evaluation coincides with the source's per-component-label evaluation. -/
theorem claim_C9_component_pass {n : ℕ} (lineOf : Fin n → FilterLine)
    (adj : Fin n → Fin n → Bool) (survivors : List (Fin n))
    (hsym : ∀ i j, adj i j = adj j i) :
    (∀ i j, j ∈ reachSet adj i ↔
        Relation.ReflTransGen (fun p q => adj p q = true) i j)
    ∧ (∀ i j, j ∈ reachSet adj i → reachSet adj j = reachSet adj i)
    ∧ ∀ i, i ∈ componentPass lineOf adj survivors ↔
        (i ∈ survivors ∧
          (MIN_COMPONENT_SIZE ≤ (reachSet adj i).card ∨
            ∃ j ∈ reachSet adj i,
              ((lineOf j).hasC1 = true ∨ isAxisAligned (lineOf j) = true))) := by
  have hsymm : Symmetric (fun p q : Fin n => adj p q = true) := by
    intro p q h
    rw [hsym]
    exact h
  refine ⟨mem_reachSet_iff adj, ?_, ?_⟩
  · intro i j hj
    rw [mem_reachSet_iff] at hj
    ext k
    rw [mem_reachSet_iff, mem_reachSet_iff]
    constructor
    · exact fun h => hj.trans h
    · exact fun h => ((Relation.ReflTransGen.symmetric hsymm) hj).trans h
  · intro i
    rw [componentPass, List.mem_filter, componentCriteria]
    simp

/-- Witness for C9: a three-line graph with one edge `0 — 1`; of the
first-pass survivors `[0, 2]`, line `0` belongs to the size-2 component
`{0, 1}` and line `2` to the singleton `{2}`, neither C1 nor axis-aligned. -/
theorem claim_C9_witness :
    (∀ i j, j ∈ reachSet
          (fun i j : Fin 3 => decide ((i = 0 ∧ j = 1) ∨ (i = 1 ∧ j = 0))) i ↔
        Relation.ReflTransGen
          (fun p q : Fin 3 =>
            (decide ((p = 0 ∧ q = 1) ∨ (p = 1 ∧ q = 0)) : Bool) = true) i j)
    ∧ (∀ i j, j ∈ reachSet
          (fun i j : Fin 3 => decide ((i = 0 ∧ j = 1) ∨ (i = 1 ∧ j = 0))) i →
        reachSet (fun i j : Fin 3 => decide ((i = 0 ∧ j = 1) ∨ (i = 1 ∧ j = 0))) j =
          reachSet (fun i j : Fin 3 => decide ((i = 0 ∧ j = 1) ∨ (i = 1 ∧ j = 0))) i)
    ∧ ∀ i, i ∈ componentPass (fun _ => ⟨⟨0, 0, 0⟩, ⟨0, 0, 0⟩, false⟩)
          (fun i j : Fin 3 => decide ((i = 0 ∧ j = 1) ∨ (i = 1 ∧ j = 0)))
          [0, 2] ↔
        (i ∈ [(0 : Fin 3), 2] ∧
          (MIN_COMPONENT_SIZE ≤ (reachSet
              (fun i j : Fin 3 => decide ((i = 0 ∧ j = 1) ∨ (i = 1 ∧ j = 0))) i).card ∨
            ∃ j ∈ reachSet
                (fun i j : Fin 3 => decide ((i = 0 ∧ j = 1) ∨ (i = 1 ∧ j = 0))) i,
              (((fun _ : Fin 3 => (⟨⟨0, 0, 0⟩, ⟨0, 0, 0⟩, false⟩ : FilterLine)) j).hasC1 = true ∨
                isAxisAligned ((fun _ : Fin 3 => (⟨⟨0, 0, 0⟩, ⟨0, 0, 0⟩, false⟩ : FilterLine)) j) = true))) :=
  claim_C9_component_pass (fun _ => ⟨⟨0, 0, 0⟩, ⟨0, 0, 0⟩, false⟩)
    (fun i j : Fin 3 => decide ((i = 0 ∧ j = 1) ∨ (i = 1 ∧ j = 0)))
    [0, 2] (by decide)
